import Mathlib

/-!
Verification of the Generative-ABSA inference driver (`inference.py`) and of the
structured-text serialization / parsing / scoring pipeline described in the
repository's design document.

The driver model below is a shallow embedding of the `__main__` block of
`inference.py`: command-line configuration, input loading, checkpoint loading,
the fixed-size batching data loader, the per-batch generate/decode loop, and
the append-mode writes to the results file.  The generation service and the
decoder are abstract parameters, matching the design's treatment of them as
external black boxes.
-/

namespace GenABSA

/-- Command-line configuration produced by `init_args` in `inference.py`
(only the fields the driver consumes are modelled). -/
structure Args where
  task : String
  file_path : String
  paradigm : String
  ckpt : String
  train_batch_size : Nat
  eval_batch_size : Nat
  max_seq_length : Nat
deriving Repr, DecidableEq

/-- The batch size handed to the inference `DataLoader`
(`DataLoader(input_data, batch_size=32, num_workers=4)`, line 330 of
`inference.py`): the literal `32`, not a field of `args`. -/
def dataLoaderBatchSize (_ : Args) : Nat := 32

/-- The `max_length` argument of the `model.model.generate` call
(line 346 of `inference.py`): the literal `128`, not `args.max_seq_length`. -/
def generateMaxLength (_ : Args) : Nat := 128

/-- Sequential fixed-size batching of the input examples, as performed by a
non-shuffling `DataLoader`: consecutive chunks of `k` examples, the final
chunk possibly shorter, input order preserved. -/
def chunkList (k : Nat) : List α → List (List α)
  | [] => []
  | a :: l => (a :: l.take (k - 1)) :: chunkList k (l.drop (k - 1))
termination_by l => l.length
decreasing_by
  simp only [List.length_drop, List.length_cons]
  omega

/-- The per-batch inference loop of `inference.py` (lines 341-352): for each
batch in order, call the generation service; on success decode every output
row and append one line per row to the results file (opened in append mode),
then continue with the next batch; a raised generation failure aborts the
whole loop, leaving the file as written so far.  The result is the final file
contents together with the abort error, if any. -/
def runBatches (gen : List α → Except ε (List β)) (dec : β → String) :
    List String → List (List α) → List String × Option ε
  | file, [] => (file, none)
  | file, b :: bs =>
    match gen b with
    | Except.error e => (file, some e)
    | Except.ok outs => runBatches gen dec (file ++ outs.map dec) bs

/-- The `__main__` block of `inference.py`: build the input dataset from the
file named on the command line (line 323), then load the trained checkpoint
(line 333), then run the batched generate/decode/append loop over the input
chunked by the data-loader batch size.  Input loading and checkpoint loading
are fallible; a failure in either aborts the run before the loop, leaving the
results file untouched. -/
def runMain (args : Args) (loadInput : Except ε (List α)) (loadCkpt : Except ε μ)
    (gen : μ → Nat → List α → Except ε (List β)) (dec : β → String)
    (file0 : List String) : List String × Option ε :=
  match loadInput with
  | Except.error e => (file0, some e)
  | Except.ok exs =>
    match loadCkpt with
    | Except.error e => (file0, some e)
    | Except.ok m =>
        runBatches (gen m (generateMaxLength args)) dec file0
          (chunkList (dataLoaderBatchSize args) exs)

/-- The observable steps of the driver, named as in the design document. -/
inductive Event where
  | LOAD_CHECKPOINT
  | LOAD_INPUT
  | ENCODE
  | GENERATE
  | DECODE
  | APPEND_TO_OUTPUT
  | DONE
deriving Repr, DecidableEq

/-- The four events of one iteration of the inference loop. -/
def perBatchEvents : List Event :=
  [Event.ENCODE, Event.GENERATE, Event.DECODE, Event.APPEND_TO_OUTPUT]

/-- The per-batch events of a run over `n` batches. -/
def batchEvents : Nat → List Event
  | 0 => []
  | n + 1 => perBatchEvents ++ batchEvents n

/-- The ordered event trace of one run of `inference.py.__main__` over `n`
batches: the input dataset is built first (line 323), the checkpoint is loaded
second (line 333), then each batch is fetched and encoded by the data loader,
generated, decoded and appended, and the run finishes. -/
def driverTrace (n : Nat) : List Event :=
  Event.LOAD_INPUT :: Event.LOAD_CHECKPOINT :: (batchEvents n ++ [Event.DONE])

/-- Position of the first occurrence of an event in a trace (length of the
trace if absent). -/
def eventIdx (e : Event) : List Event → Nat
  | [] => 0
  | x :: xs => if x = e then 0 else eventIdx e xs + 1

/-- One training/validation batch as handed to `T5FineTuner._step`: a mapping
with the four tensor fields built by the dataset, each a batch of integer
rows. -/
structure BatchData where
  source_ids : List (List Int)
  source_mask : List (List Int)
  target_ids : List (List Int)
  target_mask : List (List Int)
deriving Repr, DecidableEq

/-- `T5FineTuner._step` (lines 156-168 of `inference.py`): take the batch's
`target_ids`, overwrite every entry equal to the tokenizer's pad token id with
`-100` (the masked-label sentinel), call the model forward pass on the batch's
source ids, source mask, the relabelled targets and the target mask, and
return the loss.  The relabelling is an in-place tensor update, so the batch
the caller holds is mutated: the returned pair carries the loss and the
batch as the caller sees it afterwards. -/
def T5_step (pad : Int)
    (forwardLoss : List (List Int) → List (List Int) → List (List Int) →
      List (List Int) → Int)
    (batch : BatchData) : Int × BatchData :=
  let lm_labels :=
    batch.target_ids.map (List.map fun v => if v = pad then -100 else v)
  let batch2 := { batch with target_ids := lm_labels }
  (forwardLoss batch2.source_ids batch2.source_mask lm_labels batch2.target_mask,
    batch2)

/-!
Structured-text serialization, parsing and scoring.  The repository's
`data_utils.py` and `eval_utils.py` are not under `src/`; the definitions in
this section are modelled from the design document (§3, §4.1-§4.3).
-/

/-- The four ABSA task formulations. -/
inductive Task where
  | uabsa
  | aste
  | tasd
  | aope
deriving Repr, DecidableEq

/-- Modelled from the spec: the tuple arity of each task's label schema
(uabsa: aspect/polarity; aste: aspect/opinion/polarity; tasd:
aspect/category/polarity; aope: aspect/opinion). -/
def Task.arity : Task → Nat
  | Task.uabsa => 2
  | Task.aste => 3
  | Task.tasd => 3
  | Task.aope => 2

/-- The two target-text construction paradigms. -/
inductive Paradigm where
  | annotation
  | extraction
deriving Repr, DecidableEq

/-- Raw text, as a list of characters. -/
abbrev Str := List Char

/-- Join a list of pieces with a single separator character between
consecutive pieces. -/
def joinSep (sep : Char) : List Str → Str
  | [] => []
  | [t] => t
  | t :: ts => t ++ sep :: joinSep sep ts

/-- Split a character list at every occurrence of the separator (the inverse
of `joinSep` on collision-free pieces); always returns at least one piece. -/
def splitOnChar (c : Char) : Str → List Str
  | [] => [[]]
  | a :: rest =>
    if a = c then [] :: splitOnChar c rest
    else
      match splitOnChar c rest with
      | [] => [[a]]
      | r :: rs => (a :: r) :: rs

/-- Strip leading and trailing space characters. -/
def trim (l : Str) : Str :=
  ((l.dropWhile (fun ch => ch = ' ')).reverse.dropWhile (fun ch => ch = ' ')).reverse

/-- A labeled span of the annotation paradigm: token start offset, token
length, and the tag (polarity or category) written inline in the bracket
marker. -/
abbrev Span := Nat × Nat × Str

/-- Modelled from the spec: a gold label structure, either an annotated
sentence (token sequence plus labeled spans, annotation paradigm) or a flat
tuple list (extraction paradigm). -/
inductive GoldLabels where
  | ann (toks : List Str) (spans : List Span)
  | ext (tuples : List (List Str))
deriving Repr, DecidableEq

/-- The paradigm a gold label structure belongs to. -/
def paradigmOf : GoldLabels → Paradigm
  | GoldLabels.ann _ _ => Paradigm.annotation
  | GoldLabels.ext _ => Paradigm.extraction

/-- The text of the span of `l` tokens starting at token offset `s`,
space-joined. -/
def spanTextOf (toks : List Str) (s l : Nat) : Str :=
  joinSep ' ' ((toks.drop s).take l)

/-- Modelled from the spec (§4.1, annotation paradigm): render the sentence
from position `pos` onward as a list of segments — plain tokens left
unchanged, and each labeled span wrapped as one segment
`[span text|TAG]` — processing spans left to right. -/
def buildSegs (toks : List Str) : Nat → List Span → List Str
  | pos, [] => toks.drop pos
  | pos, (s, l, tag) :: rest =>
    (toks.drop pos).take (s - pos) ++
      ('[' :: spanTextOf toks s l ++ '|' :: tag ++ [']']) :: buildSegs toks (s + l) rest

/-- Modelled from the spec (§4.1): serialize a gold label structure to the
target text.  Annotation paradigm: the sentence with each labeled span
wrapped in a bracket marker carrying its tag inline, segments space-joined.
Extraction paradigm: tuples joined by `;`, fields inside a tuple joined
by `,`, in the task's fixed field order. -/
def serializeTarget (_ : Task) : GoldLabels → Str
  | GoldLabels.ann toks spans => joinSep ' ' (buildSegs toks 0 spans)
  | GoldLabels.ext tuples => joinSep ';' (tuples.map (joinSep ','))

/-- Scanner state while looking for bracket-marker patterns: `none` when
outside any marker; `some (sp, none)` after an opening `[`, accumulating the
span text `sp`; `some (sp, some tg)` after the `|`, accumulating the tag
`tg`. -/
abbrev ScanState := Option (Str × Option Str)

/-- Modelled from the spec (§4.2, annotation paradigm): scan a string left to
right for bracket-marker patterns `[…|…]`; each completed match yields its
(span text, tag) pair; an unmatched or incomplete marker at the end of the
input is discarded, never fatal. -/
def scanAnn : ScanState → Str → List (Str × Str)
  | _, [] => []
  | none, c :: cs =>
    if c = '[' then scanAnn (some ([], none)) cs else scanAnn none cs
  | some (sp, none), c :: cs =>
    if c = '|' then scanAnn (some (sp, some [])) cs
    else scanAnn (some (sp ++ [c], none)) cs
  | some (sp, some tg), c :: cs =>
    if c = ']' then (sp, tg) :: scanAnn none cs
    else scanAnn (some (sp, some (tg ++ [c]))) cs

/-- The annotation-paradigm parser over raw characters: scan from the
outside state. -/
def parseAnnChars (l : Str) : List (Str × Str) :=
  scanAnn none l

/-- Modelled from the spec (§4.2): the total parser from decoded text back to
a duplicate-free list of parsed tuples, each tuple a list of fields.
Annotation paradigm: bracket-marker scan, each match yielding a
(span text, tag) tuple.  Extraction paradigm: split on `;` into candidates,
split each candidate on `,`, trim each field, discard candidates whose field
count differs from the task's arity.  Malformed material degrades to
discarded candidates; no failure is possible. -/
def parseTarget (p : Paradigm) (task : Task) (s : Str) : List (List Str) :=
  match p with
  | Paradigm.annotation =>
    ((parseAnnChars s).map (fun pr => [pr.1, pr.2])).dedup
  | Paradigm.extraction =>
    (((splitOnChar ';' s).map (fun t => (splitOnChar ',' t).map trim)).filter
      (fun t => t.length = task.arity)).dedup

/-- Modelled from the spec: the normalized form of a gold label structure —
the duplicate-free list of its tuples with whitespace-trimmed fields, spans
replaced by their space-joined text, tuples of the wrong arity discarded
(annotation tuples are (span text, tag) pairs). -/
def normalizeLabels (task : Task) : GoldLabels → List (List Str)
  | GoldLabels.ann toks spans =>
    (spans.map (fun sp => [spanTextOf toks sp.1 sp.2.1, sp.2.2])).dedup
  | GoldLabels.ext tuples =>
    ((tuples.map (List.map trim)).filter (fun t => t.length = task.arity)).dedup

/-- A piece of raw text free of the annotation marker characters. -/
def markerFree (t : Str) : Bool :=
  t.all (fun ch => ch ≠ '[' && ch ≠ ']' && ch ≠ '|')

/-- Spans are in left-to-right order, non-overlapping, inside the sentence,
non-empty, with marker-free tags. -/
def spansOK (total : Nat) : Nat → List Span → Bool
  | _, [] => true
  | pos, (s, l, tag) :: rest =>
    decide (pos ≤ s) && decide (1 ≤ l) && decide (s + l ≤ total) && markerFree tag &&
      spansOK total (s + l) rest

/-- An extraction field free of the reserved delimiters and already in
trimmed form. -/
def fieldOK (f : Str) : Bool :=
  f.all (fun ch => ch ≠ ';' && ch ≠ ',') && trim f == f

/-- Modelled from the spec: a well-formed gold label structure with no
delimiter collisions.  Annotation: marker-free tokens and tags, spans ordered,
non-overlapping and in bounds.  Extraction: every tuple of the task's arity,
every field delimiter-free and trimmed. -/
def wellFormed (task : Task) : GoldLabels → Bool
  | GoldLabels.ann toks spans => toks.all markerFree && spansOK toks.length 0 spans
  | GoldLabels.ext tuples => tuples.all (fun t => t.length == task.arity && t.all fieldOK)

/-!
Scorer, modelled from the spec (§4.3): corpus-level precision / recall / F1
over a list of (gold tuple set, predicted tuple set) pairs.
-/

/-- Modelled from the spec: true positives of one example — the number of
distinct tuples present in both the gold and the predicted set. -/
def tpCount [DecidableEq α] (gold pred : List α) : Nat :=
  (gold.toFinset ∩ pred.toFinset).card

/-- Corpus total of true positives. -/
def tpTotal [DecidableEq α] (pairs : List (List α × List α)) : Nat :=
  (pairs.map (fun pr => tpCount pr.1 pr.2)).sum

/-- Corpus total of distinct gold tuples. -/
def goldTotal [DecidableEq α] (pairs : List (List α × List α)) : Nat :=
  (pairs.map (fun pr => pr.1.toFinset.card)).sum

/-- Corpus total of distinct predicted tuples. -/
def predTotal [DecidableEq α] (pairs : List (List α × List α)) : Nat :=
  (pairs.map (fun pr => pr.2.toFinset.card)).sum

/-- Modelled from the spec: precision = TP / predicted-count, defined as 0
when the predicted count is 0. -/
def precisionOf [DecidableEq α] (pairs : List (List α × List α)) : ℚ :=
  if predTotal pairs = 0 then 0 else (tpTotal pairs : ℚ) / (predTotal pairs : ℚ)

/-- Modelled from the spec: recall = TP / gold-count, defined as 0 when the
gold count is 0. -/
def recallOf [DecidableEq α] (pairs : List (List α × List α)) : ℚ :=
  if goldTotal pairs = 0 then 0 else (tpTotal pairs : ℚ) / (goldTotal pairs : ℚ)

/-- Modelled from the spec: F1 = harmonic mean of precision and recall,
defined as 0 when both are 0. -/
def f1Of [DecidableEq α] (pairs : List (List α × List α)) : ℚ :=
  if precisionOf pairs + recallOf pairs = 0 then 0
  else 2 * precisionOf pairs * recallOf pairs / (precisionOf pairs + recallOf pairs)

/-!
Concrete instances used to witness the theorems below on closed inputs.
-/

/-- A concrete configuration: the parser defaults of `init_args`. -/
def args0 : Args :=
  { task := "uabsa", file_path := "rest14", paradigm := "annotation",
    ckpt := "outputs/tasd/rest15/annotation/cktepoch=18.ckpt",
    train_batch_size := 16, eval_batch_size := 16, max_seq_length := 128 }

/-- A concrete decoder for witnesses. -/
def dec0 (n : Nat) : String := toString n

/-- A concrete per-example generation function for witnesses. -/
def gPlus (_ : Unit) (x : Nat) : Nat := x + 1

/-- A concrete always-succeeding batch generation service for witnesses. -/
def genOK (m : Unit) (_ : Nat) (b : List Nat) : Except Unit (List Nat) :=
  Except.ok (b.map (gPlus m))

/-- A concrete generation service that fails exactly on the empty batch. -/
def genFail (b : List Nat) : Except Unit (List Nat) :=
  if b.length = 0 then Except.error () else Except.ok b

/-- A concrete annotation-paradigm gold label structure: the sentence
`the battery life rocks` with the span `battery life` tagged `POS`. -/
def exAnn : GoldLabels :=
  GoldLabels.ann
    [['t', 'h', 'e'], ['b', 'a', 't', 't', 'e', 'r', 'y'],
      ['l', 'i', 'f', 'e'], ['r', 'o', 'c', 'k', 's']]
    [(1, 2, ['P', 'O', 'S'])]

/-- A concrete scorer input: one example whose gold and predicted sets agree
on the single tuple `[0]`. -/
def pairs0 : List (List Nat × List Nat) := [([0], [0])]

/-- Each piece followed by the separator, concatenated: the shape of the
part of a separator-joined list that precedes a distinguished piece. -/
def joinEach (sep : Char) (parts : List Str) : Str :=
  (parts.map (fun p => p ++ [sep])).flatten

end GenABSA

namespace GenABSA

/-!
Helper lemmas about the driver model.
-/

theorem chunkList_flatten (k : Nat) (l : List α) : (chunkList k l).flatten = l := by
  induction l using chunkList.induct k with
  | case1 => simp [chunkList]
  | case2 a l ih =>
    simp only [chunkList, List.flatten_cons, List.cons_append, ih]
    simp [List.take_append_drop]

theorem chunkList_mem_length (k : Nat) (hk : 1 ≤ k) (l : List α) :
    ∀ b ∈ chunkList k l, b.length ≤ k := by
  induction l using chunkList.induct k with
  | case1 => intro b hb; simp [chunkList] at hb
  | case2 a l ih =>
    intro b hb
    simp only [chunkList, List.mem_cons] at hb
    rcases hb with rfl | hb
    · simp only [List.length_cons, List.length_take]
      omega
    · exact ih b hb

theorem runBatches_ok (gen : List α → Except ε (List β)) (dec : β → String)
    (g : α → β) (hgen : ∀ b, gen b = Except.ok (b.map g)) (bs : List (List α)) :
    ∀ file : List String,
      runBatches gen dec file bs = (file ++ bs.flatten.map (fun x => dec (g x)), none) := by
  induction bs with
  | nil => intro file; simp [runBatches]
  | cons b bs ih =>
    intro file
    simp only [runBatches, hgen b]
    rw [ih (file ++ (b.map g).map dec)]
    simp [List.map_map, Function.comp_def, List.append_assoc]

theorem runBatches_frame (gen : List α → Except ε (List β)) (dec : β → String)
    (bs : List (List α)) : ∀ file : List String, file <+: (runBatches gen dec file bs).1 := by
  induction bs with
  | nil => intro file; exact List.prefix_rfl
  | cons b bs ih =>
    intro file
    simp only [runBatches]
    cases hg : gen b with
    | error e => exact List.prefix_rfl
    | ok outs => exact (List.prefix_append file (outs.map dec)).trans (ih (file ++ outs.map dec))

theorem runBatches_abort (gen : List α → Except ε (List β)) (dec : β → String)
    (e : ε) (b : List α) (hb : gen b = Except.error e) (pre : List (List α)) :
    (∀ x ∈ pre, ∃ outs, gen x = Except.ok outs) →
    ∀ (post : List (List α)) (file : List String),
      runBatches gen dec file (pre ++ b :: post) = ((runBatches gen dec file pre).1, some e) := by
  induction pre with
  | nil =>
    intro _ post file
    simp [runBatches, hb]
  | cons x pre ih =>
    intro hpre post file
    obtain ⟨outs, hx⟩ := hpre x (by simp)
    simp only [List.cons_append, runBatches, hx]
    exact ih (fun y hy => hpre y (by simp [hy])) post (file ++ outs.map dec)

theorem batchEvents_length (n : Nat) : (batchEvents n).length = 4 * n := by
  induction n with
  | zero => rfl
  | succ n ih =>
    simp only [batchEvents, List.length_append, ih, perBatchEvents, List.length_cons,
      List.length_nil]
    omega

theorem batchEvents_count_generate (n : Nat) :
    (batchEvents n).count Event.GENERATE = n := by
  induction n with
  | zero => rfl
  | succ n ih =>
    rw [batchEvents, List.count_append, ih]
    rw [show perBatchEvents.count Event.GENERATE = 1 from by decide]
    omega

theorem batchEvents_drop (i : Nat) :
    ∀ n : Nat, i < n →
      (batchEvents n).drop (4 * i) = perBatchEvents ++ batchEvents (n - (i + 1)) := by
  induction i with
  | zero =>
    intro n hn
    cases n with
    | zero => omega
    | succ m => simp [batchEvents]
  | succ i ih =>
    intro n hn
    cases n with
    | zero => omega
    | succ m =>
      have h2 : i < m := by omega
      have e4 : 4 * (i + 1) = 4 + 4 * i := by ring
      rw [batchEvents, e4, ← List.drop_drop]
      have hdrop : (perBatchEvents ++ batchEvents m).drop 4 = batchEvents m := by
        simp [perBatchEvents]
      rw [hdrop, ih m h2]
      congr 2
      omega

/-!
Claim theorems.
-/

/-- C1: For every run over N input examples, the driver processes batches
strictly in input order and appends exactly one decoded prediction line per
example to the output file, so after the run the appended lines correspond
1:1 and in the same order with the input examples.  Here the generation
service satisfies its contract of producing one output row per input example,
in order: the final file is the initial file followed by exactly
`exs.map (fun x => dec (g x))`, the per-example decoded predictions in input
order. -/
theorem C1_order_preserving_output (args : Args) (exs : List α) (m : μ)
    (gen : μ → Nat → List α → Except ε (List β)) (dec : β → String)
    (f0 : List String) (g : α → β)
    (hgen : ∀ b, gen m (generateMaxLength args) b = Except.ok (b.map g)) :
    runMain args (Except.ok exs) (Except.ok m) gen dec f0 =
      (f0 ++ exs.map (fun x => dec (g x)), none) := by
  show runBatches (gen m (generateMaxLength args)) dec f0
      (chunkList (dataLoaderBatchSize args) exs) = _
  rw [runBatches_ok (gen m (generateMaxLength args)) dec g hgen
    (chunkList (dataLoaderBatchSize args) exs) f0]
  rw [chunkList_flatten]

/-- Witness for C1 at a concrete run: three examples, generation adds one,
the file gains the three decoded lines in order. -/
theorem C1_witness :
    runMain args0 (Except.ok [1, 2, 3]) (Except.ok ()) genOK dec0 ["old line"] =
      (["old line"] ++ [1, 2, 3].map (fun x => dec0 (gPlus () x)), none) :=
  C1_order_preserving_output args0 [1, 2, 3] () genOK dec0 ["old line"] (gPlus ())
    (fun _ => rfl)

/-- C2: For every run, writing predictions to the results file preserves all
contents the file held before the run: the initial contents are a prefix of
the final contents, for every outcome of input loading, checkpoint loading
and generation (the file is opened in append mode, `"a+"`). -/
theorem C2_append_preserves_file (args : Args) (li : Except ε (List α))
    (lc : Except ε μ) (gen : μ → Nat → List α → Except ε (List β))
    (dec : β → String) (f0 : List String) :
    f0 <+: (runMain args li lc gen dec f0).1 := by
  cases li with
  | error e => exact List.prefix_rfl
  | ok exs =>
    cases lc with
    | error e => exact List.prefix_rfl
    | ok m =>
      exact runBatches_frame (gen m (generateMaxLength args)) dec
        (chunkList (dataLoaderBatchSize args) exs) f0

/-- C3 is FALSE as stated: in `inference.py.__main__` the input dataset is
built (line 323) before the checkpoint is loaded (line 333).  In the trace of
a one-batch run, LOAD_INPUT occurs at position 0 and LOAD_CHECKPOINT at
position 1, so the checkpoint is not loaded before the input. -/
theorem C3_counterexample :
    eventIdx Event.LOAD_INPUT (driverTrace 1) = 0 ∧
    eventIdx Event.LOAD_CHECKPOINT (driverTrace 1) = 1 ∧
    ¬ eventIdx Event.LOAD_CHECKPOINT (driverTrace 1) <
        eventIdx Event.LOAD_INPUT (driverTrace 1) := by
  decide

/-- C3 (amended): in every run the driver's steps occur in the order
LOAD_INPUT, then LOAD_CHECKPOINT, then per batch ENCODE, GENERATE, DECODE,
APPEND_TO_OUTPUT, then DONE; in particular the input data is loaded before
the checkpoint. -/
theorem C3_amended_step_order (n : Nat) :
    eventIdx Event.LOAD_INPUT (driverTrace n) = 0 ∧
    eventIdx Event.LOAD_CHECKPOINT (driverTrace n) = 1 ∧
    (driverTrace n).getLast? = some Event.DONE ∧
    (driverTrace n).count Event.GENERATE = n ∧
    ∀ i, i < n → ((driverTrace n).drop (2 + 4 * i)).take 4 = perBatchEvents := by
  refine ⟨by simp [driverTrace, eventIdx], by simp [driverTrace, eventIdx], ?_, ?_, ?_⟩
  · rw [show driverTrace n =
      (Event.LOAD_INPUT :: Event.LOAD_CHECKPOINT :: batchEvents n) ++ [Event.DONE] from rfl]
    exact List.getLast?_concat _
  · rw [driverTrace]
    simp only [List.count_cons, List.count_append, List.count_nil,
      batchEvents_count_generate,
      show (Event.DONE == Event.GENERATE) = false from rfl,
      show (Event.LOAD_CHECKPOINT == Event.GENERATE) = false from rfl,
      show (Event.LOAD_INPUT == Event.GENERATE) = false from rfl]
    simp
  · intro i hi
    rw [driverTrace, show 2 + 4 * i = 4 * i + 1 + 1 from by omega,
      List.drop_succ_cons, List.drop_succ_cons]
    rw [List.drop_append_of_le_length (by rw [batchEvents_length]; omega)]
    rw [batchEvents_drop i n hi]
    simp [perBatchEvents]

/-- Witness for C3 (amended) at a one-batch run. -/
theorem C3_witness :
    eventIdx Event.LOAD_INPUT (driverTrace 1) = 0 ∧
    eventIdx Event.LOAD_CHECKPOINT (driverTrace 1) = 1 ∧
    (driverTrace 1).getLast? = some Event.DONE ∧
    (driverTrace 1).count Event.GENERATE = 1 ∧
    ∀ i, i < 1 → ((driverTrace 1).drop (2 + 4 * i)).take 4 = perBatchEvents :=
  C3_amended_step_order 1

/-- C4 is FALSE as stated: in the default configuration `--eval_batch_size`
is 16, but the inference data loader is constructed with the literal
`batch_size=32` (line 330 of `inference.py`). -/
theorem C4_counterexample :
    dataLoaderBatchSize args0 ≠ args0.eval_batch_size := by
  decide

/-- C4 (amended): for every run, the batch size used by the inference data
loader is the hard-coded constant 32, regardless of the `--eval_batch_size`
configuration value; every batch handed to the loop has at most 32
examples. -/
theorem C4_amended_hardcoded_batch_size (a : Args) (exs : List α) :
    dataLoaderBatchSize a = 32 ∧
    ∀ b ∈ chunkList (dataLoaderBatchSize a) exs, b.length ≤ 32 :=
  ⟨rfl, chunkList_mem_length 32 (by omega) exs⟩

/-- Witness for C4 (amended) at the default configuration and five
examples. -/
theorem C4_witness :
    dataLoaderBatchSize args0 = 32 ∧
    ∀ b ∈ chunkList (dataLoaderBatchSize args0) [1, 2, 3, 4, 5], b.length ≤ 32 :=
  C4_amended_hardcoded_batch_size args0 [1, 2, 3, 4, 5]

/-- C7: For every run, if the generation service fails on some batch, the
whole run aborts: the loop result carries the error, the file holds exactly
what the earlier successful batches appended, and the batches after the
failing one contribute nothing (the result does not depend on `post`); there
is no per-batch retry and no partial-result resumption. -/
theorem C7_batch_failure_aborts (gen : List α → Except ε (List β))
    (dec : β → String) (e : ε) (b : List α) (pre post : List (List α))
    (file : List String) (hb : gen b = Except.error e)
    (hpre : ∀ x ∈ pre, ∃ outs, gen x = Except.ok outs) :
    runBatches gen dec file (pre ++ b :: post) =
      ((runBatches gen dec file pre).1, some e) :=
  runBatches_abort gen dec e b hb pre hpre post file

/-- Witness for C7: two good batches, then a failing batch, then one more
batch; the run aborts with the failure, keeping only the first two batches'
lines. -/
theorem C7_witness :
    genFail [] = Except.error () ∧
    runBatches genFail dec0 ["old line"] ([[1], [2]] ++ [] :: [[3]]) =
      ((runBatches genFail dec0 ["old line"] [[1], [2]]).1, some ()) :=
  ⟨rfl, C7_batch_failure_aborts genFail dec0 () [] [[1], [2]] [[3]] ["old line"] rfl
    (fun x hx => by fin_cases hx <;> exact ⟨_, rfl⟩)⟩

/-- C8: For every run started with a failing input load or a failing
checkpoint load, the run fails at startup: the result is an error, the
results file is exactly the initial file (nothing was written), and the
outcome does not depend on the generation service or the decoder (neither
ever runs). -/
theorem C8_startup_failure_aborts {β : Type} (args : Args)
    (li : Except ε (List α)) (lc : Except ε μ)
    (h : (∃ e, li = Except.error e) ∨ (∃ e, lc = Except.error e)) :
    ∃ e, ∀ (gen : μ → Nat → List α → Except ε (List β)) (dec : β → String)
      (f0 : List String), runMain args li lc gen dec f0 = (f0, some e) := by
  cases li with
  | error e => exact ⟨e, fun gen dec f0 => rfl⟩
  | ok exs =>
    cases lc with
    | error e => exact ⟨e, fun gen dec f0 => rfl⟩
    | ok m =>
      rcases h with ⟨e, he⟩ | ⟨e, he⟩ <;> exact absurd he (by simp)

/-- Witness for C8: a run whose checkpoint load fails aborts at startup with
the file untouched. -/
theorem C8_witness :
    ((∃ e, (Except.ok [1, 2] : Except Unit (List Nat)) = Except.error e) ∨
      (∃ e, (Except.error () : Except Unit Unit) = Except.error e)) ∧
    ∃ e, ∀ (gen : Unit → Nat → List Nat → Except Unit (List Nat))
      (dec : Nat → String) (f0 : List String),
        runMain args0 (Except.ok [1, 2]) (Except.error ()) gen dec f0 = (f0, some e) :=
  ⟨Or.inr ⟨(), rfl⟩,
    C8_startup_failure_aborts args0 (Except.ok [1, 2]) (Except.error ())
      (Or.inr ⟨(), rfl⟩)⟩

/-- C9: `T5FineTuner._step` updates the batch's `target_ids` in place so that
every entry equal to the pad token id becomes `-100`, leaves every other
entry of `target_ids` unchanged (same shape), and leaves `source_ids`,
`source_mask` and `target_mask` unchanged. -/
theorem C9_step_relabels_pad_only (pad : Int)
    (f : List (List Int) → List (List Int) → List (List Int) →
      List (List Int) → Int) (b : BatchData) :
    (T5_step pad f b).2.source_ids = b.source_ids ∧
    (T5_step pad f b).2.source_mask = b.source_mask ∧
    (T5_step pad f b).2.target_mask = b.target_mask ∧
    (T5_step pad f b).2.target_ids.length = b.target_ids.length ∧
    ∀ i j : Nat,
      ((T5_step pad f b).2.target_ids[i]?.bind (fun row => row[j]?)) =
        (b.target_ids[i]?.bind (fun row => row[j]?)).map
          (fun v => if v = pad then -100 else v) := by
  refine ⟨rfl, rfl, rfl, by simp [T5_step], ?_⟩
  intro i j
  show ((b.target_ids.map (List.map fun v => if v = pad then -100 else v))[i]?.bind
      (fun row => row[j]?)) = _
  rw [List.getElem?_map]
  cases b.target_ids[i]? with
  | none => rfl
  | some row => simp [List.getElem?_map]

/-- C10: for every run and every batch, the generation service is invoked
with a maximum output length of exactly 128 tokens (`max_length=128`,
line 346 of `inference.py`), independent of the `--max_seq_length`
configuration value. -/
theorem C10_hardcoded_generate_length (a : Args) (m : Nat) :
    generateMaxLength a = 128 ∧
    generateMaxLength { a with max_seq_length := m } = generateMaxLength a :=
  ⟨rfl, rfl⟩

/-!
Scorer lemmas and C6.
-/

theorem tpTotal_le_goldTotal [DecidableEq α] (pairs : List (List α × List α)) :
    tpTotal pairs ≤ goldTotal pairs := by
  induction pairs with
  | nil => exact le_refl _
  | cons pr ps ih =>
    simp only [tpTotal, goldTotal, List.map_cons, List.sum_cons] at *
    exact Nat.add_le_add (Finset.card_le_card Finset.inter_subset_left) ih

theorem tpTotal_le_predTotal [DecidableEq α] (pairs : List (List α × List α)) :
    tpTotal pairs ≤ predTotal pairs := by
  induction pairs with
  | nil => exact le_refl _
  | cons pr ps ih =>
    simp only [tpTotal, predTotal, List.map_cons, List.sum_cons] at *
    exact Nat.add_le_add (Finset.card_le_card Finset.inter_subset_right) ih

/-- C6: the scorer's precision, recall and F1 are always finite numbers in
[0,1]; precision is TP/predicted-count with the 0 convention when the
predicted count is 0, recall is TP/gold-count with the 0 convention when the
gold count is 0, and F1 is the harmonic mean with the 0 convention when both
precision and recall are 0; no division by zero is ever performed. -/
theorem C6_scorer_metrics [DecidableEq α] (pairs : List (List α × List α)) :
    (0 ≤ precisionOf pairs ∧ precisionOf pairs ≤ 1) ∧
    (0 ≤ recallOf pairs ∧ recallOf pairs ≤ 1) ∧
    (0 ≤ f1Of pairs ∧ f1Of pairs ≤ 1) ∧
    (predTotal pairs = 0 → precisionOf pairs = 0) ∧
    (predTotal pairs ≠ 0 →
      precisionOf pairs = (tpTotal pairs : ℚ) / (predTotal pairs : ℚ)) ∧
    (goldTotal pairs = 0 → recallOf pairs = 0) ∧
    (goldTotal pairs ≠ 0 →
      recallOf pairs = (tpTotal pairs : ℚ) / (goldTotal pairs : ℚ)) ∧
    (precisionOf pairs = 0 → recallOf pairs = 0 → f1Of pairs = 0) ∧
    (precisionOf pairs + recallOf pairs ≠ 0 →
      f1Of pairs = 2 * precisionOf pairs * recallOf pairs /
        (precisionOf pairs + recallOf pairs)) := by
  have hpb : 0 ≤ precisionOf pairs ∧ precisionOf pairs ≤ 1 := by
    rw [precisionOf]
    split
    · norm_num
    · next hne =>
      constructor
      · exact div_nonneg (by positivity) (by positivity)
      · rw [div_le_one (by exact_mod_cast Nat.pos_of_ne_zero hne)]
        exact_mod_cast tpTotal_le_predTotal pairs
  have hrb : 0 ≤ recallOf pairs ∧ recallOf pairs ≤ 1 := by
    rw [recallOf]
    split
    · norm_num
    · next hne =>
      constructor
      · exact div_nonneg (by positivity) (by positivity)
      · rw [div_le_one (by exact_mod_cast Nat.pos_of_ne_zero hne)]
        exact_mod_cast tpTotal_le_goldTotal pairs
  have hfb : 0 ≤ f1Of pairs ∧ f1Of pairs ≤ 1 := by
    rw [f1Of]
    split
    · norm_num
    · next hne =>
      have hpr : 0 < precisionOf pairs + recallOf pairs :=
        lt_of_le_of_ne (add_nonneg hpb.1 hrb.1) (Ne.symm hne)
      constructor
      · exact div_nonneg (by nlinarith [hpb.1, hrb.1]) (le_of_lt hpr)
      · rw [div_le_one hpr]
        nlinarith [hpb.1, hpb.2, hrb.1, hrb.2]
  refine ⟨hpb, hrb, hfb, ?_, ?_, ?_, ?_, ?_, ?_⟩
  · intro h; simp [precisionOf, h]
  · intro h; simp [precisionOf, h]
  · intro h; simp [recallOf, h]
  · intro h; simp [recallOf, h]
  · intro h1 h2; simp [f1Of, h1, h2]
  · intro h; simp [f1Of, h]

/-- Witness for C6 at the concrete input `pairs0` (one example, gold =
predicted = the single tuple `[0]`). -/
theorem C6_witness :
    (0 ≤ precisionOf pairs0 ∧ precisionOf pairs0 ≤ 1) ∧
    (0 ≤ recallOf pairs0 ∧ recallOf pairs0 ≤ 1) ∧
    (0 ≤ f1Of pairs0 ∧ f1Of pairs0 ≤ 1) ∧
    (predTotal pairs0 = 0 → precisionOf pairs0 = 0) ∧
    (predTotal pairs0 ≠ 0 →
      precisionOf pairs0 = (tpTotal pairs0 : ℚ) / (predTotal pairs0 : ℚ)) ∧
    (goldTotal pairs0 = 0 → recallOf pairs0 = 0) ∧
    (goldTotal pairs0 ≠ 0 →
      recallOf pairs0 = (tpTotal pairs0 : ℚ) / (goldTotal pairs0 : ℚ)) ∧
    (precisionOf pairs0 = 0 → recallOf pairs0 = 0 → f1Of pairs0 = 0) ∧
    (precisionOf pairs0 + recallOf pairs0 ≠ 0 →
      f1Of pairs0 = 2 * precisionOf pairs0 * recallOf pairs0 /
        (precisionOf pairs0 + recallOf pairs0)) :=
  C6_scorer_metrics pairs0

/-!
Join/split lemmas for the extraction-paradigm grammar.
-/

theorem joinSep_cons_ne (sep : Char) (t : Str) (L : List Str) (h : L ≠ []) :
    joinSep sep (t :: L) = t ++ sep :: joinSep sep L := by
  cases L with
  | nil => exact absurd rfl h
  | cons u L2 => rfl

theorem mem_joinSep (sep c : Char) :
    ∀ parts : List Str, c ∈ joinSep sep parts → c = sep ∨ ∃ p ∈ parts, c ∈ p := by
  intro parts
  induction parts with
  | nil => intro h; simp [joinSep] at h
  | cons t ts ih =>
    cases ts with
    | nil =>
      intro h
      exact Or.inr ⟨t, by simp, h⟩
    | cons u ts2 =>
      intro h
      rw [joinSep_cons_ne sep t (u :: ts2) (by simp)] at h
      rcases List.mem_append.mp h with h1 | h1
      · exact Or.inr ⟨t, by simp, h1⟩
      · rcases List.mem_cons.mp h1 with h2 | h2
        · exact Or.inl h2
        · rcases ih h2 with h3 | ⟨p, hp, hc⟩
          · exact Or.inl h3
          · exact Or.inr ⟨p, by simp [hp], hc⟩

theorem splitOnChar_of_not_mem (c : Char) (p : Str) (h : c ∉ p) :
    splitOnChar c p = [p] := by
  induction p with
  | nil => rfl
  | cons a rest ih =>
    have ha : ¬(a = c) := fun e => h (by simp [e])
    rw [splitOnChar, if_neg ha, ih (fun hc => h (List.mem_cons_of_mem a hc))]

theorem splitOnChar_append_sep (c : Char) (r : Str) :
    ∀ p : Str, c ∉ p → splitOnChar c (p ++ c :: r) = p :: splitOnChar c r := by
  intro p
  induction p with
  | nil =>
    intro _
    show splitOnChar c (c :: r) = [] :: splitOnChar c r
    rw [splitOnChar, if_pos rfl]
  | cons a p2 ih =>
    intro h
    have ha : ¬(a = c) := fun e => h (by simp [e])
    have h2 : c ∉ p2 := fun hc => h (List.mem_cons_of_mem a hc)
    show splitOnChar c (a :: (p2 ++ c :: r)) = (a :: p2) :: splitOnChar c r
    rw [splitOnChar, if_neg ha, ih h2]

theorem splitOnChar_joinSep (c : Char) :
    ∀ parts : List Str, parts ≠ [] → (∀ p ∈ parts, c ∉ p) →
      splitOnChar c (joinSep c parts) = parts := by
  intro parts
  induction parts with
  | nil => intro h _; exact absurd rfl h
  | cons t ts ih =>
    intro _ hmem
    cases ts with
    | nil => exact splitOnChar_of_not_mem c t (hmem t (by simp))
    | cons u ts2 =>
      rw [joinSep_cons_ne c t (u :: ts2) (by simp)]
      rw [splitOnChar_append_sep c (joinSep c (u :: ts2)) t (hmem t (by simp))]
      rw [ih (by simp) (fun p hp => hmem p (by simp [hp]))]

theorem wf_ext_spec (task : Task) (tuples : List (List Str))
    (h : wellFormed task (GoldLabels.ext tuples) = true) :
    ∀ t ∈ tuples, t.length = task.arity ∧
      ∀ f ∈ t, ';' ∉ f ∧ ',' ∉ f ∧ trim f = f := by
  rw [wellFormed, List.all_eq_true] at h
  intro t ht
  have h1 := h t ht
  rw [Bool.and_eq_true, List.all_eq_true] at h1
  obtain ⟨hlen, hfields⟩ := h1
  refine ⟨eq_of_beq hlen, ?_⟩
  intro f hf
  have h2 := hfields f hf
  rw [fieldOK, Bool.and_eq_true, List.all_eq_true] at h2
  obtain ⟨hchars, htrim⟩ := h2
  refine ⟨?_, ?_, eq_of_beq htrim⟩
  · intro hc
    have hx := hchars ';' hc
    simp at hx
  · intro hc
    have hx := hchars ',' hc
    simp at hx

theorem map_id_of_mem (l : List α) (f : α → α) (h : ∀ a ∈ l, f a = a) :
    l.map f = l := by
  induction l with
  | nil => rfl
  | cons a l ih =>
    simp only [List.map_cons]
    rw [h a (by simp), ih (fun b hb => h b (by simp [hb]))]

theorem roundtrip_ext (task : Task) (tuples : List (List Str))
    (h : wellFormed task (GoldLabels.ext tuples) = true) :
    parseTarget Paradigm.extraction task
        (serializeTarget task (GoldLabels.ext tuples)) =
      normalizeLabels task (GoldLabels.ext tuples) := by
  have hspec := wf_ext_spec task tuples h
  cases tuples with
  | nil => cases task <;> rfl
  | cons t0 ts =>
    have hone : ∀ t ∈ t0 :: ts, ((splitOnChar ',' (joinSep ',' t)).map trim) = t := by
      intro t ht
      obtain ⟨hlen, hfl⟩ := hspec t ht
      have htne : t ≠ [] := by
        intro e
        rw [e] at hlen
        cases task <;> simp [Task.arity] at hlen
      rw [splitOnChar_joinSep ',' t htne (fun f hf => (hfl f hf).2.1)]
      exact map_id_of_mem t trim (fun f hf => (hfl f hf).2.2)
    have htrims : ∀ t ∈ t0 :: ts, List.map trim t = t := by
      intro t ht
      obtain ⟨hlen, hfl⟩ := hspec t ht
      exact map_id_of_mem t trim (fun f hf => (hfl f hf).2.2)
    have hsep : ∀ p ∈ (t0 :: ts).map (joinSep ','), ';' ∉ p := by
      intro p hp
      rcases List.mem_map.mp hp with ⟨t, ht, rfl⟩
      intro hin
      rcases mem_joinSep ',' ';' t hin with h1 | ⟨f, hf, hc⟩
      · exact absurd h1 (by decide)
      · exact ((hspec t ht).2 f hf).1 hc
    simp only [parseTarget, serializeTarget, normalizeLabels]
    rw [splitOnChar_joinSep ';' ((t0 :: ts).map (joinSep ',')) (by simp) hsep]
    rw [List.map_map]
    simp only [Function.comp_def]
    rw [map_id_of_mem (t0 :: ts)
      (fun a => List.map trim (splitOnChar ',' (joinSep ',' a))) hone]
    rw [map_id_of_mem (t0 :: ts) (List.map trim) htrims]

/-!
Scanner lemmas for the annotation-paradigm grammar.
-/

theorem markerFree_spec (t : Str) (h : markerFree t = true) :
    ∀ ch ∈ t, ch ≠ '[' ∧ ch ≠ ']' ∧ ch ≠ '|' := by
  rw [markerFree, List.all_eq_true] at h
  intro ch hch
  have hx := h ch hch
  simp only [Bool.and_eq_true, decide_eq_true_eq] at hx
  exact ⟨hx.1.1, hx.1.2, hx.2⟩

theorem mem_joinEach (sep c : Char) (parts : List Str) (h : c ∈ joinEach sep parts) :
    c = sep ∨ ∃ p ∈ parts, c ∈ p := by
  rw [joinEach] at h
  rcases List.mem_flatten.mp h with ⟨q, hq, hcq⟩
  rcases List.mem_map.mp hq with ⟨p, hp, rfl⟩
  rcases List.mem_append.mp hcq with h1 | h1
  · exact Or.inr ⟨p, hp, h1⟩
  · simp only [List.mem_singleton] at h1
    exact Or.inl h1

theorem scanAnn_cons_skip (c : Char) (h : ¬(c = '[')) (rest : Str) :
    scanAnn none (c :: rest) = scanAnn none rest := by
  rw [scanAnn, if_neg h]

theorem scanAnn_skip (p : Str) (h : ∀ ch ∈ p, ch ≠ '[') :
    ∀ rest : Str, scanAnn none (p ++ rest) = scanAnn none rest := by
  induction p with
  | nil => intro rest; rfl
  | cons a p2 ih =>
    intro rest
    show scanAnn none (a :: (p2 ++ rest)) = _
    rw [scanAnn_cons_skip a (h a (by simp)) (p2 ++ rest)]
    exact ih (fun ch hc => h ch (by simp [hc])) rest

theorem scanAnn_span_acc (txt : Str) (h : ∀ ch ∈ txt, ch ≠ '|') :
    ∀ (sp rest : Str),
      scanAnn (some (sp, none)) (txt ++ rest) = scanAnn (some (sp ++ txt, none)) rest := by
  induction txt with
  | nil => intro sp rest; simp
  | cons c txt2 ih =>
    intro sp rest
    show scanAnn (some (sp, none)) (c :: (txt2 ++ rest)) = _
    rw [scanAnn, if_neg (h c (by simp))]
    rw [ih (fun ch hch => h ch (by simp [hch])) (sp ++ [c]) rest]
    simp [List.append_assoc]

theorem scanAnn_tag_acc (tg0 : Str) (h : ∀ ch ∈ tg0, ch ≠ ']') :
    ∀ (sp tg rest : Str),
      scanAnn (some (sp, some tg)) (tg0 ++ rest) =
        scanAnn (some (sp, some (tg ++ tg0))) rest := by
  induction tg0 with
  | nil => intro sp tg rest; simp
  | cons c tg2 ih =>
    intro sp tg rest
    show scanAnn (some (sp, some tg)) (c :: (tg2 ++ rest)) = _
    rw [scanAnn, if_neg (h c (by simp))]
    rw [ih (fun ch hch => h ch (by simp [hch])) sp (tg ++ [c]) rest]
    simp [List.append_assoc]

theorem scanAnn_marker (txt tag rest : Str) (h1 : ∀ ch ∈ txt, ch ≠ '|')
    (h2 : ∀ ch ∈ tag, ch ≠ ']') :
    scanAnn none ('[' :: (txt ++ '|' :: (tag ++ ']' :: rest))) =
      (txt, tag) :: scanAnn none rest := by
  rw [scanAnn, if_pos rfl]
  rw [scanAnn_span_acc txt h1 [] ('|' :: (tag ++ ']' :: rest))]
  rw [scanAnn, if_pos rfl]
  rw [scanAnn_tag_acc tag h2 ([] ++ txt) [] (']' :: rest)]
  rw [scanAnn, if_pos rfl]
  simp

theorem joinSep_append_cons (sep : Char) (x : Str) (B : List Str) :
    ∀ A : List Str, joinSep sep (A ++ x :: B) =
      joinEach sep A ++ x ++ (if B = [] then [] else sep :: joinSep sep B) := by
  intro A
  induction A with
  | nil =>
    cases B with
    | nil => simp [joinEach, joinSep]
    | cons u B2 =>
      rw [List.nil_append, joinSep_cons_ne sep x (u :: B2) (by simp)]
      simp [joinEach]
  | cons t A2 ih =>
    have hne : A2 ++ x :: B ≠ [] := by simp
    show joinSep sep (t :: (A2 ++ x :: B)) = _
    rw [joinSep_cons_ne sep t _ hne, ih]
    simp [joinEach, List.append_assoc]

theorem buildSegs_cons_ne_nil (toks : List Str) (pos : Nat) (sp : Span)
    (rest : List Span) : buildSegs toks pos (sp :: rest) ≠ [] := by
  obtain ⟨s, l, tag⟩ := sp
  show ((toks.drop pos).take (s - pos) ++
    ('[' :: spanTextOf toks s l ++ '|' :: tag ++ [']']) :: buildSegs toks (s + l) rest) ≠ []
  simp

theorem spanTextOf_chars (toks : List Str) (htoks : ∀ t ∈ toks, markerFree t = true)
    (s l : Nat) : ∀ ch ∈ spanTextOf toks s l, ch ≠ '[' ∧ ch ≠ ']' ∧ ch ≠ '|' := by
  intro ch hch
  rcases mem_joinSep ' ' ch ((toks.drop s).take l) hch with h1 | ⟨p, hp, hc⟩
  · rw [h1]; refine ⟨by decide, by decide, by decide⟩
  · exact markerFree_spec p
      (htoks p (List.mem_of_mem_drop (List.mem_of_mem_take hp))) ch hc

theorem scanAnn_buildSegs (toks : List Str)
    (htoks : ∀ t ∈ toks, markerFree t = true) :
    ∀ (spans : List Span), (∀ sp ∈ spans, markerFree sp.2.2 = true) →
      ∀ pos : Nat,
        scanAnn none (joinSep ' ' (buildSegs toks pos spans)) =
          spans.map (fun sp => (spanTextOf toks sp.1 sp.2.1, sp.2.2)) := by
  intro spans
  induction spans with
  | nil =>
    intro _ pos
    show scanAnn none (joinSep ' ' (toks.drop pos)) = []
    have hnb : ∀ ch ∈ joinSep ' ' (toks.drop pos), ch ≠ '[' := by
      intro ch hch
      rcases mem_joinSep ' ' ch (toks.drop pos) hch with h1 | ⟨p, hp, hc⟩
      · rw [h1]; decide
      · exact (markerFree_spec p (htoks p (List.mem_of_mem_drop hp)) ch hc).1
    have hz := scanAnn_skip (joinSep ' ' (toks.drop pos)) hnb []
    rw [List.append_nil] at hz
    rw [hz]
    rfl
  | cons sp0 spans2 ih =>
    intro htags pos
    obtain ⟨s, l, tag⟩ := sp0
    have htag : markerFree tag = true := htags (s, l, tag) (by simp)
    have htxt : ∀ ch ∈ spanTextOf toks s l, ch ≠ '|' :=
      fun ch hch => (spanTextOf_chars toks htoks s l ch hch).2.2
    have htagch : ∀ ch ∈ tag, ch ≠ ']' :=
      fun ch hch => (markerFree_spec tag htag ch hch).2.1
    have hpre : ∀ ch ∈ joinEach ' ' ((toks.drop pos).take (s - pos)), ch ≠ '[' := by
      intro ch hch
      rcases mem_joinEach ' ' ch ((toks.drop pos).take (s - pos)) hch with h1 | ⟨p, hp, hc⟩
      · rw [h1]; decide
      · exact (markerFree_spec p
          (htoks p (List.mem_of_mem_drop (List.mem_of_mem_take hp))) ch hc).1
    show scanAnn none (joinSep ' '
        ((toks.drop pos).take (s - pos) ++
          ('[' :: spanTextOf toks s l ++ '|' :: tag ++ [']']) ::
            buildSegs toks (s + l) spans2)) = _
    rw [joinSep_append_cons ' ' _ (buildSegs toks (s + l) spans2)
      ((toks.drop pos).take (s - pos))]
    rw [List.append_assoc]
    rw [scanAnn_skip _ hpre]
    cases hB : buildSegs toks (s + l) spans2 with
    | nil =>
      cases spans2 with
      | cons sp2 rest2 => exact absurd hB (buildSegs_cons_ne_nil toks (s + l) sp2 rest2)
      | nil =>
        rw [if_pos rfl]
        show scanAnn none
          (('[' :: spanTextOf toks s l ++ '|' :: tag ++ [']']) ++ []) = _
        rw [List.append_nil]
        have hm := scanAnn_marker (spanTextOf toks s l) tag [] htxt htagch
        simp only [List.cons_append, List.append_assoc, List.singleton_append,
        List.nil_append] at hm ⊢
        rw [hm]
        rfl
    | cons b0 B2 =>
      rw [if_neg (by simp)]
      show scanAnn none
        (('[' :: spanTextOf toks s l ++ '|' :: tag ++ [']']) ++
          ' ' :: joinSep ' ' (b0 :: B2)) = _
      have hm := scanAnn_marker (spanTextOf toks s l) tag
        (' ' :: joinSep ' ' (b0 :: B2)) htxt htagch
      simp only [List.cons_append, List.append_assoc, List.singleton_append,
        List.nil_append] at hm ⊢
      rw [hm]
      rw [scanAnn_cons_skip ' ' (by decide) (joinSep ' ' (b0 :: B2))]
      rw [← hB]
      rw [ih (fun sp hsp => htags sp (by simp [hsp])) (s + l)]
      rfl

theorem spansOK_tags (total : Nat) :
    ∀ (spans : List Span) (pos : Nat), spansOK total pos spans = true →
      ∀ sp ∈ spans, markerFree sp.2.2 = true := by
  intro spans
  induction spans with
  | nil => intro pos _ sp hsp; simp at hsp
  | cons sp0 rest ih =>
    intro pos h sp hsp
    obtain ⟨s, l, tag⟩ := sp0
    rw [spansOK] at h
    simp only [Bool.and_eq_true] at h
    rcases List.mem_cons.mp hsp with rfl | hsp2
    · exact h.1.2
    · exact ih (s + l) h.2 sp hsp2

theorem roundtrip_ann (task : Task) (toks : List Str) (spans : List Span)
    (h : wellFormed task (GoldLabels.ann toks spans) = true) :
    parseTarget Paradigm.annotation task
        (serializeTarget task (GoldLabels.ann toks spans)) =
      normalizeLabels task (GoldLabels.ann toks spans) := by
  rw [wellFormed, Bool.and_eq_true] at h
  obtain ⟨htoks0, hspans⟩ := h
  have htoks : ∀ t ∈ toks, markerFree t = true := List.all_eq_true.mp htoks0
  have htags := spansOK_tags toks.length spans 0 hspans
  simp only [parseTarget, serializeTarget, normalizeLabels, parseAnnChars]
  rw [scanAnn_buildSegs toks htoks spans htags 0]
  rw [List.map_map]
  rfl

/-- C5: for every well-formed gold label structure L with no delimiter
collisions, and for every paradigm (chosen by the shape of L) and task,
parsing the serialized target text yields the normalized form of L:
`parseTarget (serializeTarget L) = normalizeLabels L`.  The parser is a total
function on arbitrary strings (malformed input degrades to discarded
candidates, an empty result rather than an error). -/
theorem C5_parse_serialize_roundtrip (task : Task) (L : GoldLabels)
    (h : wellFormed task L = true) :
    parseTarget (paradigmOf L) task (serializeTarget task L) =
      normalizeLabels task L := by
  cases L with
  | ann toks spans => exact roundtrip_ann task toks spans h
  | ext tuples => exact roundtrip_ext task tuples h

/-- Witness for C5 at the concrete annotated sentence `exAnn`
(`the [battery life|POS] rocks`). -/
theorem C5_witness :
    wellFormed Task.uabsa exAnn = true ∧
    parseTarget (paradigmOf exAnn) Task.uabsa (serializeTarget Task.uabsa exAnn) =
      normalizeLabels Task.uabsa exAnn :=
  ⟨by decide, C5_parse_serialize_roundtrip Task.uabsa exAnn (by decide)⟩

end GenABSA
